import Mathlib

/-!
Verification of the trust-and-resource-path layer of the `total5` framework
port: the virtual path resolver (`src/utils.rs`, `TPath`), the CSRF token
service, the audit logger and the bounded error ring (`src/src/lib.rs`,
`impl DEF`).  Every definition is a shallow embedding of the corresponding
Rust source; strings are modelled by their character lists, machine integers
by `Int`/`Nat`, fallible operations by `Option`, and the possibility of a
panic by an `Option` result (`none` marks a panic).  Helper functions that
the repository calls but does not define under `src/` (`encrypt`, `decrypt`,
`hash_user_agent`) are modelled from the specification and marked as such.
-/

namespace Total5

/-! ## Path resolver: shallow embedding of `TPath` from `src/utils.rs`

Paths are modelled as strings; `PathBuf::join` appends with a `/` separator
unless the joined fragment is absolute (starts with `/`), in which case it
replaces the whole path, matching `std::path::PathBuf::join` semantics on
Unix.  `TPath::new` registers ten named subdirectories of the base
directory; `route` dispatches on escape rules exactly as the source does. -/

/-- Model of `PathBuf::join`: an absolute fragment replaces the path,
a relative fragment is appended after a separator. -/
def joinPath (dir p : String) : String :=
  if p.data.head? = some '/' then p else dir ++ "/" ++ p

/-- The directory names registered in `temporary_dirs` by `TPath::new`. -/
def registeredDirs : List String :=
  ["logs", "scripts", "public", "private", "databases", "plugins",
   "templates", "flowstreams", "modules", "tmp"]

/-- Model of the `temporary_dirs` map built by `TPath::new`:
each registered name maps to `base_dir.join(name)`. -/
def temporaryDirs (base name : String) : Option String :=
  if name ∈ registeredDirs then some (joinPath base name) else none

/-- Model of `TPath::plugins(Some(p))`: join under the cached plugins dir. -/
def plugins (base p : String) : String :=
  joinPath (joinPath base "plugins") p

/-- Model of `TPath::directory(dir_type, Some(path))`: look the name up in
`temporary_dirs`; an unregistered name falls back to `base_dir.clone()`,
ignoring the path fragment. -/
def directory (base dirType p : String) : String :=
  match temporaryDirs base dirType with
  | some dir => joinPath dir p
  | none => base

/-- Model of the `match directory` dispatch at the end of `TPath::route`:
each registered resolver joins under its cached directory, `root` joins
under the base directory, and unknown names go through `directory`. -/
def dispatch (base p dir : String) : String :=
  if dir = "root" then joinPath base p
  else if dir = "logs" then joinPath (joinPath base "logs") p
  else if dir = "scripts" then joinPath (joinPath base "scripts") p
  else if dir = "public" then joinPath (joinPath base "public") p
  else if dir = "private" then joinPath (joinPath base "private") p
  else if dir = "databases" then joinPath (joinPath base "databases") p
  else if dir = "plugins" then joinPath (joinPath base "plugins") p
  else if dir = "templates" then joinPath (joinPath base "templates") p
  else if dir = "flowstreams" then joinPath (joinPath base "flowstreams") p
  else if dir = "modules" then joinPath (joinPath base "modules") p
  else if dir = "tmp" then joinPath (joinPath base "tmp") p
  else directory base dir p

/-- Model of `str::find('/')`: index of the first slash, if any. -/
def firstSlash : List Char → Option Nat
  | [] => none
  | c :: cs => if c = '/' then some 0 else (firstSlash cs).map (· + 1)

/-- Model of `TPath::route`.  The result is `none` exactly when the Rust
source panics.  The source's `tmp.find('/')` is a byte index and
`&tmp[(index + 2)..]` is a byte slice; since `/` is ASCII it never occurs
inside a multi-byte UTF-8 sequence, so the byte position of the first `/`
marks the same prefix as the character position, and `&tmp[..index]` is
always a valid slice (the character prefix before the `/`).  The slice
start `index + 2` is one byte past the start of the character following
the `/`: it is in range and on a character boundary exactly when such a
character exists and encodes in one UTF-8 byte (code point below 128);
when it exists and is multi-byte the slice panics at a non-boundary, and
when the `/` is the final character the slice start is past the end.  In
the non-panicking case that following character is one byte, so dropping
two bytes after the slash drops two characters. -/
def route (base path dir : String) : Option String :=
  match path.data with
  | [] => some (dispatch base path dir)
  | c :: tmp =>
    if c = '~' then some (String.mk tmp)
    else if c = '_' then
      match firstSlash tmp with
      | some index =>
          match (tmp.drop (index + 1)).head? with
          | some c2 =>
              if c2.toNat < 128 then
                let pluginName : String := String.mk (tmp.take index)
                let dirPart : String := if dir = "root" then "" else dir
                let pathPart : String := String.mk (tmp.drop (index + 2))
                some (plugins base (pluginName ++ "/" ++ dirPart ++ "/" ++ pathPart))
              else none
          | none => none
      | none => some (dispatch base path dir)
    else some (dispatch base path dir)

/-- The inputs on which the Rust `TPath::route` panics: plugin-scoped paths
where the first `/` is the final character (the byte slice
`&tmp[(index + 2)..]` starts past the end of the string) or where the
character following the first `/` takes more than one UTF-8 byte (the
slice start falls inside that character, off any boundary). -/
def routePanics (path : String) : Bool :=
  match path.data with
  | [] => false
  | c :: tmp =>
    if c = '~' then false
    else if c = '_' then
      match firstSlash tmp with
      | some index =>
          match (tmp.drop (index + 1)).head? with
          | some c2 => decide (128 ≤ c2.toNat)
          | none => true
      | none => false
    else false

end Total5

namespace Total5

/-! ## Theorems about the path resolver -/

/-- C7: a path beginning with `~` routes to the literal remainder after the
`~`, for every base directory and every directory name; the directory
context is ignored entirely. -/
theorem route_tilde_literal (base : String) (cs : List Char) (dir : String) :
    route base (String.mk ('~' :: cs)) dir = some (String.mk cs) := by
  simp [route]

/-- C9: for every relative path fragment (one that is neither a `~` absolute
escape nor a `_` plugin escape) and every directory name outside the
registered set, `route` falls back to the bare base directory. -/
theorem route_unregistered_dir_base (base p d : String)
    (hd : d ∉ "root" :: registeredDirs)
    (h1 : p.data.head? ≠ some '~') (h2 : p.data.head? ≠ some '_') :
    route base p d = some base := by
  simp only [registeredDirs, List.mem_cons, List.mem_singleton] at hd
  push_neg at hd
  obtain ⟨hroot, hlogs, hscripts, hpublic, hprivate, hdatabases, hplugins,
    htemplates, hflowstreams, hmodules, htmp, hnil⟩ := hd
  have hdisp : dispatch base p d = base := by
    simp [dispatch, hroot, hlogs, hscripts, hpublic, hprivate, hdatabases,
      hplugins, htemplates, hflowstreams, hmodules, htmp, hnil, directory,
      temporaryDirs, registeredDirs]
  cases hp : p.data with
  | nil => simp [route, hp, hdisp]
  | cons c tmp =>
    rw [hp] at h1 h2
    simp only [List.head?_cons, ne_eq, Option.some.injEq] at h1 h2
    simp [route, hp, h1, h2, hdisp]

/-- C9 witness: the unregistered name `weird` resolves to the base
directory for a plain relative fragment. -/
theorem route_unregistered_dir_base_witness :
    route "src" "a.txt" "weird" = some "src" :=
  route_unregistered_dir_base "src" "a.txt" "weird" (by decide) (by decide)
    (by decide)

/-- C10 counterexample: `route` is not total; on the plugin-scoped path
`_a/`, where no character follows the first `/`, the slice
`&tmp[(index + 2)..]` is out of range and the source panics. -/
theorem route_panics_counterexample :
    route "src" "_a/" "public" = none := by decide

/-- C10 amended: `route` returns a path without panicking on every pair of
input strings except the plugin-scoped paths where the first `/` after the
plugin name is the final character of the path (such as `_a/`, where the
byte slice `&tmp[(index + 2)..]` starts past the end of the string) or is
followed by a character of more than one UTF-8 byte (such as `_a/é`, where
the slice start is not on a character boundary). -/
theorem route_total_unless_short_plugin (base p d : String)
    (h : routePanics p = false) :
    (route base p d).isSome = true := by
  cases hp : p.data with
  | nil => simp [route, hp]
  | cons c tmp =>
    rw [routePanics, hp] at h
    by_cases hc : c = '~'
    · simp [route, hp, hc]
    · by_cases hc2 : c = '_'
      · subst hc2
        cases hf : firstSlash tmp with
        | none => simp [route, hp, hc, hf]
        | some index =>
            cases hh : (tmp.drop (index + 1)).head? with
            | none => simp [hc, hf, hh] at h
            | some c2 =>
                simp only [hc, hf, hh] at h
                simp only [if_false, if_true, decide_eq_false_iff_not, not_le] at h
                simp [route, hp, hc, hf, hh, h]
      · simp [route, hp, hc, hc2]

/-- C10 amended witness: a well-formed plugin path routes without a
panic. -/
theorem route_total_unless_short_plugin_witness :
    (route "src" "_a/x" "public").isSome = true :=
  route_total_unless_short_plugin "src" "_a/x" "public" (by decide)

/-! ## Decimal numerals

Model of the decimal rendering used when the expiry timestamp
(`expiration.timestamp_millis()`, an `i64`) is serialized into the token
payload, and of `str::parse::<i64>` used by `on_csrf_check` on the stored
expiry field.  The embedding treats `i64` as the unbounded `Int`. -/

/-! ## Decimal numerals

Model of the decimal rendering used when the expiry timestamp
(`expiration.timestamp_millis()`, an `i64`) is serialized into the token
payload, and of `str::parse::<i64>` used by `on_csrf_check` on the stored
expiry field.  The embedding treats `i64` as the unbounded `Int`. -/

/-- The character of a decimal digit (`0`-`9`); values past `9` only arise
from arguments already reduced modulo ten. -/
def digitChar : Nat → Char
  | 0 => '0' | 1 => '1' | 2 => '2' | 3 => '3' | 4 => '4'
  | 5 => '5' | 6 => '6' | 7 => '7' | 8 => '8' | _ => '9'

def digitVal (c : Char) : Nat := c.toNat - 48

/-- Fuel-driven digit loop; the fuel only needs to exceed the number being
rendered, and `natDigits` supplies enough. -/
def natDigitsF : Nat → Nat → List Char
  | 0, _ => []
  | fuel + 1, n =>
      if n < 10 then [digitChar n]
      else natDigitsF fuel (n / 10) ++ [digitChar (n % 10)]

/-- Decimal digits of a natural number, most significant first. -/
def natDigits (n : Nat) : List Char := natDigitsF (n + 1) n

theorem natDigitsF_fuel (n : Nat) : ∀ fuel1 fuel2 : Nat, n < fuel1 → n < fuel2 →
    natDigitsF fuel1 n = natDigitsF fuel2 n := by
  induction n using Nat.strong_induction_on with
  | _ n ih =>
    intro fuel1 fuel2 h1 h2
    cases fuel1 with
    | zero => omega
    | succ f1 =>
      cases fuel2 with
      | zero => omega
      | succ f2 =>
        by_cases h : n < 10
        · simp [natDigitsF, h]
        · have hlt : n / 10 < n := Nat.div_lt_self (by omega) (by omega)
          simp only [natDigitsF, if_neg h]
          rw [ih (n / 10) hlt f1 f2 (by omega) (by omega)]

theorem natDigits_eq (n : Nat) :
    natDigits n = if n < 10 then [digitChar n]
      else natDigits (n / 10) ++ [digitChar (n % 10)] := by
  by_cases h : n < 10
  · simp [natDigits, natDigitsF, h]
  · rw [natDigits, natDigits]
    show natDigitsF (n + 1) n = _
    rw [natDigitsF, if_neg h, if_neg h]
    rw [natDigitsF_fuel (n / 10) n (n / 10 + 1)
      (Nat.div_lt_self (by omega) (by omega)) (by omega)]

def renderInt (i : Int) : String :=
  if i < 0 then String.mk ('-' :: natDigits i.natAbs)
  else String.mk (natDigits i.natAbs)

def parseNatAux (acc : Nat) : List Char → Option Nat
  | [] => some acc
  | c :: cs => if c.isDigit then parseNatAux (acc * 10 + digitVal c) cs else none

def parseI64 (s : String) : Option Int :=
  match s.data with
  | [] => none
  | c :: cs =>
      if c = '-' then
        if cs.isEmpty then none
        else (parseNatAux 0 cs).map (fun n => -(n : Int))
      else (parseNatAux 0 (c :: cs)).map (fun n => (n : Int))

theorem digitChar_isDigit (m : Nat) : (digitChar m).isDigit = true := by
  unfold digitChar
  split <;> decide

theorem digitVal_digitChar (m : Nat) (h : m < 10) :
    digitVal (digitChar m) = m := by
  interval_cases m <;> decide

theorem natDigits_cons (n : Nat) :
    ∃ c t, natDigits n = c :: t ∧ (c.isDigit = true) := by
  induction n using Nat.strong_induction_on with
  | _ n ih =>
    by_cases h : n < 10
    · exact ⟨digitChar n, [], by rw [natDigits_eq, if_pos h], digitChar_isDigit n⟩
    · obtain ⟨c, t, hct, hd⟩ := ih (n / 10) (Nat.div_lt_self (by omega) (by omega))
      exact ⟨c, t ++ [digitChar (n % 10)],
        by rw [natDigits_eq, if_neg h, hct]; simp, hd⟩

theorem parseNatAux_append (acc : Nat) (xs ys : List Char) :
    parseNatAux acc (xs ++ ys) =
      (parseNatAux acc xs).bind (fun a => parseNatAux a ys) := by
  induction xs generalizing acc with
  | nil => simp [parseNatAux]
  | cons c cs ih =>
    by_cases hc : c.isDigit
    · simp [parseNatAux, hc, ih]
    · simp [parseNatAux, hc]

theorem parseNatAux_natDigits (n : Nat) :
    ∀ acc, parseNatAux acc (natDigits n) =
      some (acc * 10 ^ (natDigits n).length + n) := by
  induction n using Nat.strong_induction_on with
  | _ n ih =>
    intro acc
    by_cases h : n < 10
    · rw [natDigits_eq, if_pos h]
      simp [parseNatAux, digitChar_isDigit, digitVal_digitChar n h]
    · rw [natDigits_eq, if_neg h]
      rw [parseNatAux_append]
      rw [ih (n / 10) (Nat.div_lt_self (by omega) (by omega)) acc]
      simp [parseNatAux, digitChar_isDigit,
        digitVal_digitChar (n % 10) (Nat.mod_lt n (by omega))]
      rw [pow_succ]
      rw [show ∀ k : Nat, (acc * 10 ^ k + n / 10) * 10 + n % 10
            = acc * (10 ^ k * 10) + (n / 10 * 10 + n % 10) from fun k => by ring]
      congr 1
      omega

theorem natDigits_isEmpty (n : Nat) : (natDigits n).isEmpty = false := by
  obtain ⟨c, t, hct, _⟩ := natDigits_cons n
  rw [hct]; rfl

theorem parseI64_renderInt (i : Int) : parseI64 (renderInt i) = some i := by
  obtain ⟨c, t, hct, hd⟩ := natDigits_cons i.natAbs
  have hcm : c ≠ '-' := by
    intro hc
    rw [hc] at hd
    exact absurd hd (by decide)
  by_cases h : i < 0
  · rw [renderInt, if_pos h]
    have hstep : parseI64 (String.mk ('-' :: natDigits i.natAbs)) =
        (if (natDigits i.natAbs).isEmpty then none
         else (parseNatAux 0 (natDigits i.natAbs)).map (fun n => -(n : Int))) := rfl
    rw [hstep, natDigits_isEmpty]
    rw [parseNatAux_natDigits i.natAbs 0]
    simp [abs_of_neg h]
  · rw [renderInt, if_neg h, hct]
    have hstep : parseI64 (String.mk (c :: t)) =
        (if c = '-' then
          (if t.isEmpty then none
           else (parseNatAux 0 t).map (fun n => -(n : Int)))
         else (parseNatAux 0 (c :: t)).map (fun n => (n : Int))) := rfl
    rw [hstep, if_neg hcm, ← hct, parseNatAux_natDigits i.natAbs 0]
    simp [abs_of_nonneg (not_lt.mp h)]


/-! ## JSON string arrays

Model of `serde_json::to_string` on the token payload array and of
`serde_json::from_str::<Vec<String>>` in `on_csrf_check`.  The payload is a
three-element string array (the source builds it from the controller IP,
the hashed user agent and the expiry; the specification fixes the single
consistent serialization as a string array, the expiry being its decimal
rendering).  Quotes, backslashes and newlines are escaped, so the
serialization of any record is a single line and parsing inverts it. -/

def unesc (c : Char) : Char := if c = 'n' then '\n' else c

def escChar (c : Char) : List Char :=
  if c = '"' then ['\\', '"']
  else if c = '\\' then ['\\', '\\']
  else if c = '\n' then ['\\', 'n']
  else [c]

def escape : List Char → List Char
  | [] => []
  | c :: cs => escChar c ++ escape cs

def parseStrBody : List Char → Option (List Char × List Char)
  | [] => none
  | c :: rest =>
    if c = '\\' then
      match rest with
      | [] => none
      | d :: rest2 => (parseStrBody rest2).map (fun p => (unesc d :: p.1, p.2))
    else if c = '"' then some ([], rest)
    else (parseStrBody rest).map (fun p => (c :: p.1, p.2))

def qstr (s : List Char) : List Char := '"' :: (escape s ++ ['"'])

def arrBody : List String → List Char
  | [] => []
  | [s] => qstr s.data
  | s :: rest => qstr s.data ++ (',' :: arrBody rest)

def serializeArr (l : List String) : String :=
  String.mk ('[' :: (arrBody l ++ [']']))

def parseElemsF : Nat → List Char → Option (List String)
  | 0, _ => none
  | _ + 1, [] => none
  | fuel + 1, c :: rest =>
    if c = '"' then
      match parseStrBody rest with
      | none => none
      | some (s, r) =>
        match r with
        | [] => none
        | d :: r2 =>
          if d = ']' then (if r2.isEmpty then some [String.mk s] else none)
          else if d = ',' then (parseElemsF fuel r2).map (fun l => String.mk s :: l)
          else none
    else none

def parseStringArray (str : String) : Option (List String) :=
  match str.data with
  | [] => none
  | c :: rest =>
    if c = '[' then
      if rest = [']'] then some [] else parseElemsF rest.length rest
    else none

theorem parseStrBody_quote (rest : List Char) :
    parseStrBody ('"' :: rest) = some ([], rest) := by
  rw [parseStrBody.eq_def]; simp

theorem parseStrBody_esc (d : Char) (rest2 : List Char) :
    parseStrBody ('\\' :: d :: rest2) =
      (parseStrBody rest2).map (fun p => (unesc d :: p.1, p.2)) := by
  rw [parseStrBody.eq_def]; simp

theorem parseStrBody_other (c : Char) (rest : List Char)
    (h2 : c ≠ '\\') (h1 : c ≠ '"') :
    parseStrBody (c :: rest) =
      (parseStrBody rest).map (fun p => (c :: p.1, p.2)) := by
  rw [parseStrBody.eq_def]; simp [h1, h2]

theorem parseStrBody_escape (s r : List Char) :
    parseStrBody (escape s ++ '"' :: r) = some (s, r) := by
  induction s with
  | nil => rw [show escape [] = [] from rfl, List.nil_append, parseStrBody_quote]
  | cons c cs ih =>
    by_cases h1 : c = '"'
    · subst h1
      rw [show escape ('"' :: cs) ++ '"' :: r
            = '\\' :: '"' :: (escape cs ++ '"' :: r) from by simp [escape, escChar]]
      rw [parseStrBody_esc, ih]
      rfl
    · by_cases h2 : c = '\\'
      · subst h2
        rw [show escape ('\\' :: cs) ++ '"' :: r
              = '\\' :: '\\' :: (escape cs ++ '"' :: r) from by simp [escape, escChar]]
        rw [parseStrBody_esc, ih]
        rfl
      · by_cases h3 : c = '\n'
        · subst h3
          rw [show escape ('\n' :: cs) ++ '"' :: r
                = '\\' :: 'n' :: (escape cs ++ '"' :: r) from by simp [escape, escChar]]
          rw [parseStrBody_esc, ih]
          rfl
        · rw [show escape (c :: cs) ++ '"' :: r
                = c :: (escape cs ++ '"' :: r) from by simp [escape, escChar, h1, h2, h3]]
          rw [parseStrBody_other c _ h2 h1, ih]
          rfl

theorem arrBody_cons_head (s : String) (l : List String) :
    ∃ t, arrBody (s :: l) = '"' :: t := by
  cases l with
  | nil => exact ⟨escape s.data ++ ['"'], rfl⟩
  | cons s2 l2 => exact ⟨(escape s.data ++ ['"']) ++ (',' :: arrBody (s2 :: l2)), by
      simp [arrBody, qstr]⟩

theorem arrBody_length (l : List String) :
    l.length ≤ (arrBody l ++ [']']).length := by
  induction l with
  | nil => simp
  | cons s l' ih =>
    cases l' with
    | nil => simp [arrBody, qstr]
    | cons s2 l2 =>
      simp only [arrBody, qstr] at ih ⊢
      simp at ih ⊢
      omega

theorem parseElemsF_arrBody (l : List String) :
    l ≠ [] → ∀ fuel, l.length ≤ fuel →
      parseElemsF fuel (arrBody l ++ [']']) = some l := by
  induction l with
  | nil => intro h; exact absurd rfl h
  | cons s l' ih =>
    intro _ fuel hf
    cases fuel with
    | zero => simp at hf
    | succ fuel =>
      cases l' with
      | nil =>
        have harr : arrBody [s] ++ [']'] = '"' :: (escape s.data ++ '"' :: [']']) := by
          simp [arrBody, qstr]
        rw [harr, parseElemsF]
        simp [parseStrBody_escape]
      | cons s2 l2 =>
        have harr : arrBody (s :: s2 :: l2) ++ [']'] =
            '"' :: (escape s.data ++ '"' :: (',' :: (arrBody (s2 :: l2) ++ [']']))) := by
          simp [arrBody, qstr]
        rw [harr, parseElemsF]
        simp only [if_pos rfl, parseStrBody_escape]
        rw [ih (by simp) fuel (by simp only [List.length_cons] at hf ⊢; omega)]
        simp

theorem parseStringArray_serializeArr (l : List String) :
    parseStringArray (serializeArr l) = some l := by
  cases l with
  | nil => rfl
  | cons s l' =>
    obtain ⟨t, ht⟩ := arrBody_cons_head s l'
    have hstep : ∀ X : List Char, parseStringArray (String.mk ('[' :: X)) =
        (if X = [']'] then some [] else parseElemsF X.length X) := by
      intro X
      rw [parseStringArray.eq_def]
      simp
    rw [serializeArr, hstep, ht]
    rw [if_neg (by simp)]
    rw [← ht]
    exact parseElemsF_arrBody (s :: l') (by simp)
      ((arrBody (s :: l') ++ [']']).length) (arrBody_length (s :: l'))

theorem newline_notin_escape (s : List Char) : '\n' ∉ escape s := by
  induction s with
  | nil => simp [escape]
  | cons c cs ih =>
    simp only [escape, List.mem_append]
    rintro (h | h)
    · by_cases h1 : c = '"'
      · simp [escChar, h1] at h
      · by_cases h2 : c = '\\'
        · simp [escChar, h1, h2] at h
        · by_cases h3 : c = '\n'
          · simp [escChar, h1, h2, h3] at h
          · simp [escChar, h1, h2, h3] at h
            exact h3 h.symm
    · exact ih h


/-! ## CSRF token service

Shallow embedding of `DEF::on_csrf_create` and `DEF::on_csrf_check` from
`src/lib.rs`.  The current time is passed explicitly (epoch milliseconds as
`Int`, the unbounded model of `timestamp_millis`).  The configuration slice
the service reads holds the CSRF secret and the token lifetime in
milliseconds; the source reads both through `if let Some(..)`, so they are
optional.  `hash_user_agent`, `encrypt` and `decrypt` are called by the
source but defined nowhere under `src/`; they are modelled from the
specification below. -/

/-- The request context slice the token service reads (`types.rs`,
`Controller`): client IP, header map and query map, the maps modelled as
association lists. -/
structure Controller where
  ip : String
  headers : List (String × String)
  query : List (String × String)

/-- The configuration slice the token service reads (`secret_csrf` and
`_csrfexpiration`): the source matches both with `if let Some(..)`. -/
structure Config where
  secret_csrf : Option String
  csrfexpiration : Option Nat

/-- Modelled from the spec: a deterministic string hash underlying the
hashed user-agent of the request fingerprint (`hash_user_agent` is called
by the source but not defined under `src/`). -/
def strHash (s : List Char) : Nat :=
  s.foldl (fun a c => a * 131 + c.toNat) 5381

/-- Modelled from the spec: `hash_user_agent`, the hashed user-agent half
of the request fingerprint; any deterministic hash rendered as a nonempty
string serves. -/
def hash_user_agent (ua : String) : String :=
  String.mk (natDigits (strHash ua.data))

/-- Key-and-payload tag prepended by the modelled cipher. -/
def macChar (secret plain : List Char) : Char :=
  digitChar ((strHash secret + 3 * strHash plain) % 10)

/-- Modelled from the spec: symmetric encryption keyed by the configured
CSRF secret (`encrypt` is called by the source but not defined under
`src/`), modelled as a keyed encoding that prepends an integrity tag to
the plaintext. -/
def encrypt (plaintext secret : String) : String :=
  String.mk (macChar secret.data plaintext.data :: plaintext.data)

/-- Modelled from the spec: decryption under the same secret; a token whose
tag does not match the secret is rejected, so decryption can fail, as the
spec requires. -/
def decrypt (token secret : String) : Option String :=
  match token.data with
  | [] => none
  | c :: rest =>
      if c = macChar secret.data rest then some (String.mk rest) else none

/-- Model of `DEF::on_csrf_create`: with a configured expiration, build the
payload `[ip, hash_user_agent(user-agent), expiry]`, serialize it, and
encrypt under the configured secret; with no secret (or no expiration)
return the empty string, exactly as the source's `String::new()`. -/
def on_csrf_create (ctrl : Controller) (cfg : Config) (now : Int) : String :=
  match cfg.csrfexpiration with
  | some ttlms =>
      let expiration : Int := now + ttlms
      let data : List String :=
        [ctrl.ip,
         hash_user_agent ((List.lookup "user-agent" ctrl.headers).getD ""),
         renderInt expiration]
      match cfg.secret_csrf with
      | some secret_csrf => encrypt (serializeArr data) secret_csrf
      | none => ""
  | none => ""

/-- Model of `DEF::on_csrf_check`: with no secret configured the check
passes unconditionally; otherwise the token is read from the
`x-csrf-token` header or the `csrf` query parameter, must be longer than
ten characters, must decrypt and parse into a string array, and the stored
IP, expiry and user-agent hash must all match. -/
def on_csrf_check (ctrl : Controller) (cfg : Config) (now : Int) : Bool :=
  match cfg.secret_csrf with
  | some secret_csrf =>
      match (List.lookup "x-csrf-token" ctrl.headers).or
          (List.lookup "csrf" ctrl.query) with
      | some token =>
          if token.length > 10 then
            match decrypt token secret_csrf with
            | some decrypted =>
                match parseStringArray decrypted with
                | some data =>
                    decide (3 ≤ data.length) &&
                      (data.getD 0 "" == ctrl.ip) &&
                      decide ((parseI64 (data.getD 2 "")).getD 0 ≥ now) &&
                      (data.getD 1 "" ==
                        hash_user_agent
                          ((List.lookup "user-agent" ctrl.headers).getD ""))
                | none => false
            | none => false
          else false
      | none => false
  | none => true

theorem decrypt_encrypt (p s : String) : decrypt (encrypt p s) s = some p := by
  simp [decrypt, encrypt]

theorem encrypt_length (p s : String) : (encrypt p s).length = p.length + 1 := rfl

theorem serializeArr_three_length (a b c : String) :
    10 ≤ (serializeArr [a, b, c]).length := by
  show 10 ≤ ('[' :: (arrBody [a, b, c] ++ [']'])).length
  simp [arrBody, qstr]
  omega

/-- C1: a token issued by `on_csrf_create` for a fingerprint validates via
`on_csrf_check` for the same fingerprint and secret at any time up to
issuance time plus the TTL, and fails validation at any later time. -/
theorem on_csrf_roundtrip (ip ua sec : String) (ttlms : Nat) (now now2 : Int) :
    (now2 ≤ now + (ttlms : Int) →
      on_csrf_check
        { ip := ip
          headers :=
            [("x-csrf-token",
              on_csrf_create { ip := ip, headers := [("user-agent", ua)], query := [] }
                { secret_csrf := some sec, csrfexpiration := some ttlms } now),
             ("user-agent", ua)]
          query := [] }
        { secret_csrf := some sec, csrfexpiration := some ttlms } now2 = true) ∧
    (now + (ttlms : Int) < now2 →
      on_csrf_check
        { ip := ip
          headers :=
            [("x-csrf-token",
              on_csrf_create { ip := ip, headers := [("user-agent", ua)], query := [] }
                { secret_csrf := some sec, csrfexpiration := some ttlms } now),
             ("user-agent", ua)]
          query := [] }
        { secret_csrf := some sec, csrfexpiration := some ttlms } now2 = false) := by
  have hcreate : on_csrf_create
      { ip := ip, headers := [("user-agent", ua)], query := [] }
      { secret_csrf := some sec, csrfexpiration := some ttlms } now
      = encrypt (serializeArr [ip, hash_user_agent ua, renderInt (now + ttlms)]) sec := rfl
  have h10 : (encrypt (serializeArr [ip, hash_user_agent ua, renderInt (now + ttlms)]) sec).length > 10 := by
    rw [encrypt_length]
    have := serializeArr_three_length ip (hash_user_agent ua) (renderInt (now + ttlms))
    omega
  have hkey : ∀ t : Int,
      on_csrf_check
        { ip := ip
          headers :=
            [("x-csrf-token",
              encrypt (serializeArr [ip, hash_user_agent ua, renderInt (now + ttlms)]) sec),
             ("user-agent", ua)]
          query := [] }
        { secret_csrf := some sec, csrfexpiration := some ttlms } t
      = decide (now + (ttlms : Int) ≥ t) := by
    intro t
    have hstep : on_csrf_check
        { ip := ip
          headers :=
            [("x-csrf-token",
              encrypt (serializeArr [ip, hash_user_agent ua, renderInt (now + ttlms)]) sec),
             ("user-agent", ua)]
          query := [] }
        { secret_csrf := some sec, csrfexpiration := some ttlms } t
      = (if (encrypt (serializeArr [ip, hash_user_agent ua, renderInt (now + ttlms)]) sec).length > 10 then
          match decrypt (encrypt (serializeArr [ip, hash_user_agent ua, renderInt (now + ttlms)]) sec) sec with
          | some decrypted =>
              match parseStringArray decrypted with
              | some data =>
                  decide (3 ≤ data.length) &&
                    (data.getD 0 "" == ip) &&
                    decide ((parseI64 (data.getD 2 "")).getD 0 ≥ t) &&
                    (data.getD 1 "" == hash_user_agent ua)
              | none => false
          | none => false
         else false) := rfl
    rw [hstep, if_pos h10]
    simp only [decrypt_encrypt, parseStringArray_serializeArr]
    simp [parseI64_renderInt]
  rw [hcreate]
  constructor
  · intro h
    rw [hkey now2]
    simp only [decide_eq_true_iff]
    omega
  · intro h
    rw [hkey now2]
    simp only [decide_eq_false_iff_not]
    omega


/-- C6: with no configured CSRF secret, `on_csrf_check` returns `true` for
every controller, every token and every time: CSRF protection is off. -/
theorem on_csrf_check_no_secret (ctrl : Controller) (exp : Option Nat) (now : Int) :
    on_csrf_check ctrl { secret_csrf := none, csrfexpiration := exp } now = true := rfl

/-- C3 counterexample: with no configured CSRF secret, `on_csrf_create`
returns the empty token string rather than a distinct disabled state. -/
theorem on_csrf_create_no_secret_counterexample :
    on_csrf_create
      { ip := "1.2.3.4", headers := [("user-agent", "UA")], query := [] }
      { secret_csrf := none, csrfexpiration := some 1000 } 0 = "" := rfl

/-- C3 amended: when no CSRF secret is configured, `on_csrf_create` returns
the empty string for every controller, expiration setting and time; the
disabled state is signalled to the caller only through the emptiness of the
token. -/
theorem on_csrf_create_no_secret_empty (ctrl : Controller) (exp : Option Nat) (now : Int) :
    on_csrf_create ctrl { secret_csrf := none, csrfexpiration := exp } now = "" := by
  cases exp <;> rfl

/-- C4: with a secret configured and a presented token that is longer than
ten characters, decrypts, and parses into at least three fields, the check
succeeds exactly when the stored IP equals the controller IP, the stored
expiry is at least the current time (boundary included) and the stored
user-agent hash equals the hash of the controller user-agent header. -/
theorem on_csrf_check_validation_iff (ctrl : Controller) (sec : String)
    (exp : Option Nat) (now : Int) (token plain : String) (data : List String)
    (htok : (List.lookup "x-csrf-token" ctrl.headers).or
      (List.lookup "csrf" ctrl.query) = some token)
    (hlen : token.length > 10)
    (hdec : decrypt token sec = some plain)
    (hparse : parseStringArray plain = some data)
    (hlen3 : 3 ≤ data.length) :
    on_csrf_check ctrl { secret_csrf := some sec, csrfexpiration := exp } now = true
      ↔ (data.getD 0 "" = ctrl.ip ∧
         (parseI64 (data.getD 2 "")).getD 0 ≥ now ∧
         data.getD 1 "" =
           hash_user_agent ((List.lookup "user-agent" ctrl.headers).getD "")) := by
  simp only [on_csrf_check, htok, if_pos hlen, hdec, hparse]
  simp [Bool.and_eq_true, decide_eq_true_iff, beq_iff_eq, hlen3, and_assoc]

/-- C4 witness: a concrete matching token at time 40 with stored expiry 50
validates, and the three stored fields match the fingerprint. -/
theorem on_csrf_check_validation_iff_witness :
    on_csrf_check
      { ip := "9.9.9.9"
        headers :=
          [("x-csrf-token",
            encrypt (serializeArr ["9.9.9.9", hash_user_agent "UA", "50"]) "k"),
           ("user-agent", "UA")]
        query := [] }
      { secret_csrf := some "k", csrfexpiration := some 1000 } 40 = true
      ↔ ((["9.9.9.9", hash_user_agent "UA", "50"] : List String).getD 0 "" = "9.9.9.9" ∧
         (parseI64 ((["9.9.9.9", hash_user_agent "UA", "50"] : List String).getD 2 "")).getD 0 ≥ 40 ∧
         (["9.9.9.9", hash_user_agent "UA", "50"] : List String).getD 1 "" =
           hash_user_agent "UA") :=
  on_csrf_check_validation_iff
    { ip := "9.9.9.9"
      headers :=
        [("x-csrf-token",
          encrypt (serializeArr ["9.9.9.9", hash_user_agent "UA", "50"]) "k"),
         ("user-agent", "UA")]
      query := [] }
    "k" (some 1000) 40
    (encrypt (serializeArr ["9.9.9.9", hash_user_agent "UA", "50"]) "k")
    (serializeArr ["9.9.9.9", hash_user_agent "UA", "50"])
    ["9.9.9.9", hash_user_agent "UA", "50"]
    rfl (by decide) (decrypt_encrypt _ _) (parseStringArray_serializeArr _) (by decide)


/-! ## Error ring

Shallow embedding of `DEF::on_error` from `src/lib.rs`: the recent-error
ring `f.errors` plus the aggregate counter `f.stats.error`.  The diagnostic
`println!` and backtrace are observability only and have no effect on the
state.  Each call carries its own timestamp (`Utc::now()`). -/

structure ErrorInfo where
  error : String
  name : Option String
  url : Option String
  date : Int
deriving DecidableEq

structure ErrCall where
  err : String
  name : Option String
  url : Option String
  now : Int

def mkErrorInfo (c : ErrCall) : ErrorInfo :=
  { error := c.err
    name := if c.name.getD "unknown" = "" then none else some (c.name.getD "unknown")
    url := c.url
    date := c.now }

structure ErrState where
  errors : List ErrorInfo
  statsError : Nat
deriving DecidableEq

def on_error (s : ErrState) (c : ErrCall) : ErrState :=
  let errors1 := s.errors ++ [mkErrorInfo c]
  { errors := if errors1.length > 10 then errors1.tail else errors1
    statsError := s.statsError + 1 }

def initialErrState : ErrState := { errors := [], statsError := 0 }

def runErrors (calls : List ErrCall) : ErrState :=
  calls.foldl on_error initialErrState

theorem on_error_length_le (s : ErrState) (c : ErrCall)
    (h : s.errors.length ≤ 10) : (on_error s c).errors.length ≤ 10 := by
  simp only [on_error]
  split
  · simpa using h
  · simp only [List.length_append, List.length_cons, List.length_nil] at *
    omega

theorem foldl_on_error_len (calls : List ErrCall) :
    ∀ s : ErrState, s.errors.length ≤ 10 →
      (List.foldl on_error s calls).errors.length ≤ 10 := by
  induction calls with
  | nil => intro s h; exact h
  | cons c cs ih =>
    intro s h
    rw [List.foldl_cons]
    exact ih _ (on_error_length_le s c h)

theorem foldl_on_error_stats (calls : List ErrCall) :
    ∀ s : ErrState, (List.foldl on_error s calls).statsError
      = s.statsError + calls.length := by
  induction calls with
  | nil => intro s; simp
  | cons c cs ih =>
    intro s
    rw [List.foldl_cons, ih]
    simp [on_error]
    omega

theorem foldl_on_error_errors (calls : List ErrCall) :
    ∀ s : ErrState, s.errors.length ≤ 10 →
      (List.foldl on_error s calls).errors =
        (s.errors ++ calls.map mkErrorInfo).drop
          (s.errors.length + calls.length - 10) := by
  induction calls with
  | nil =>
    intro s h
    simp [Nat.sub_eq_zero_of_le h]
  | cons c cs ih =>
    intro s h
    rw [List.foldl_cons]
    by_cases hlen : s.errors.length + 1 > 10
    · have h10 : s.errors.length = 10 := by omega
      obtain ⟨e, rest, herest⟩ : ∃ e rest, s.errors = e :: rest := by
        cases herr : s.errors with
        | nil => rw [herr] at h10; simp at h10
        | cons e rest => exact ⟨e, rest, rfl⟩
      have hrl : rest.length = 9 := by
        rw [herest] at h10
        simp only [List.length_cons] at h10
        omega
      have honc : (on_error s c).errors = rest ++ [mkErrorInfo c] := by
        simp only [on_error, herest]
        rw [if_pos (by simp; omega)]
        simp
      rw [ih _ (by rw [honc]; simp; omega), honc, herest]
      simp only [List.length_append, List.length_cons, List.length_nil,
        List.length_map, List.map_cons, List.cons_append, List.append_assoc,
        List.singleton_append]
      rw [show rest.length + 1 + cs.length - 10 = cs.length from by omega]
      rw [show rest.length + 1 + (cs.length + 1) - 10 = cs.length + 1 from by omega]
      rw [List.drop_succ_cons]
      simp
    · have honc : (on_error s c).errors = s.errors ++ [mkErrorInfo c] := by
        simp only [on_error]
        rw [if_neg (by simp; omega)]
      rw [ih _ (by rw [honc]; simp; omega), honc]
      simp only [List.length_append, List.length_cons, List.length_nil,
        List.length_map, List.map_cons, List.cons_append, List.append_assoc,
        List.singleton_append]
      congr 1
      omega

theorem runErrors_errors (calls : List ErrCall) :
    (runErrors calls).errors =
      (calls.map mkErrorInfo).drop (calls.length - 10) := by
  rw [runErrors, foldl_on_error_errors calls initialErrState (by simp [initialErrState])]
  simp [initialErrState]

/-- C5: from the initial state, the error ring never exceeds ten records
after any call sequence; on overflow the oldest record (index `0`) is the
one evicted; and after eleven reports the ring holds exactly the last ten
in insertion order while the total error counter equals eleven. -/
theorem on_error_ring_spec (calls : List ErrCall) (s : ErrState) (c : ErrCall) :
    (runErrors calls).errors.length ≤ 10 ∧
    (s.errors.length = 10 →
      (on_error s c).errors = s.errors.tail ++ [mkErrorInfo c]) ∧
    (calls.length = 11 →
      (runErrors calls).errors = (calls.map mkErrorInfo).tail ∧
      (runErrors calls).statsError = 11) := by
  refine ⟨?_, ?_, ?_⟩
  · exact foldl_on_error_len calls initialErrState (by simp [initialErrState])
  · intro h10
    obtain ⟨e, rest, herest⟩ : ∃ e rest, s.errors = e :: rest := by
      cases herr : s.errors with
      | nil => rw [herr] at h10; simp at h10
      | cons e rest => exact ⟨e, rest, rfl⟩
    simp only [on_error, herest]
    rw [if_pos (by
      simp only [List.cons_append, List.length_cons, List.length_append,
        List.length_nil]
      rw [herest] at h10
      simp only [List.length_cons] at h10
      omega)]
    simp
  · intro h11
    constructor
    · rw [runErrors_errors, h11]
      rw [show (11 : Nat) - 10 = 1 from rfl, List.drop_one]
    · rw [runErrors, foldl_on_error_stats, h11]
      rfl

/-- C5 witness: one overflow step evicts the head of a full ring, and a
concrete sequence of eleven reports leaves the last ten with counter
eleven. -/
theorem on_error_ring_spec_witness :
    (on_error
        { errors := List.replicate 10 { error := "e", name := none, url := none, date := 0 }
          statsError := 0 }
        { err := "x", name := none, url := none, now := 1 }).errors
      = (List.replicate 10
          ({ error := "e", name := none, url := none, date := 0 } : ErrorInfo)).tail
        ++ [mkErrorInfo { err := "x", name := none, url := none, now := 1 }] ∧
    ((runErrors (List.replicate 11 { err := "x", name := none, url := none, now := 1 })).errors
      = ((List.replicate 11
          ({ err := "x", name := none, url := none, now := 1 } : ErrCall)).map mkErrorInfo).tail ∧
     (runErrors (List.replicate 11 { err := "x", name := none, url := none, now := 1 })).statsError = 11) :=
  ⟨(on_error_ring_spec
      (List.replicate 11 { err := "x", name := none, url := none, now := 1 })
      { errors := List.replicate 10 { error := "e", name := none, url := none, date := 0 }
        statsError := 0 }
      { err := "x", name := none, url := none, now := 1 }).2.1 (by decide),
   (on_error_ring_spec
      (List.replicate 11 { err := "x", name := none, url := none, now := 1 })
      { errors := List.replicate 10 { error := "e", name := none, url := none, date := 0 }
        statsError := 0 }
      { err := "x", name := none, url := none, now := 1 }).2.2 (by decide)⟩

/-! ## Audit logger

Shallow embedding of `DEF::on_audit` from `src/lib.rs`.  The filesystem is
explicit state: an association list from paths to file contents, a missing
entry standing for an absent file.  The append either succeeds atomically
or fails as a whole (`ioFail`), and the source discards the result
(`let _ = ...`), so the call always returns; the audit-open counter
`f.stats.performance.open` is bumped before the write.  `AuditData` is the
source struct: the `dtcreated` stamp plus arbitrary further payload
fields. -/

structure AuditData where
  dtcreated : Int
  fields : List (String × String)

structure AuditState where
  base : String
  statsOpen : Nat
  files : List (String × String)

def serializeAuditFields : List (String × String) → List Char
  | [] => []
  | (k, v) :: rest =>
      ',' :: ((qstr k.data ++ (':' :: qstr v.data)) ++ serializeAuditFields rest)

def serializeAudit (d : AuditData) : String :=
  String.mk ('{' :: (qstr "dtcreated".data ++ (':' :: (renderInt d.dtcreated).data)
    ++ serializeAuditFields d.fields ++ ['}']))

def fileContent (files : List (String × String)) (p : String) : String :=
  (List.lookup p files).getD ""

def appendFile : List (String × String) → String → String → List (String × String)
  | [], p, line => [(p, line)]
  | (q, c) :: rest, p, line =>
      if q = p then (q, c ++ line) :: rest else (q, c) :: appendFile rest p line

def auditLogPath (base : String) (name : Option String) : String :=
  joinPath (joinPath base "logs") (name.getD "audit" ++ ".log")

def on_audit (name : Option String) (data : AuditData) (s : AuditState)
    (now : Int) (ioFail : Bool) : AuditData × AuditState :=
  let s1 : AuditState := { s with statsOpen := s.statsOpen + 1 }
  let data1 : AuditData := { data with dtcreated := now }
  let logPath := auditLogPath s.base name
  let serialized := serializeAudit data1 ++ "\n"
  (data1,
   if ioFail then s1
   else { s1 with files := appendFile s1.files logPath serialized })

theorem fileContent_appendFile_self (files : List (String × String))
    (p line : String) :
    fileContent (appendFile files p line) p = fileContent files p ++ line := by
  induction files with
  | nil => simp [appendFile, fileContent, List.lookup]
  | cons kv rest ih =>
    obtain ⟨q, c⟩ := kv
    by_cases hq : q = p
    · subst hq
      simp [appendFile, fileContent, List.lookup]
    · have hbeq : (p == q) = false :=
        beq_eq_false_iff_ne.mpr (fun h => hq h.symm)
      simp only [appendFile, if_neg hq, fileContent, List.lookup, hbeq]
      exact ih

theorem fileContent_appendFile_other (files : List (String × String))
    (p line r : String) (hr : r ≠ p) :
    fileContent (appendFile files p line) r = fileContent files r := by
  have hbeq : (r == p) = false := beq_eq_false_iff_ne.mpr hr
  induction files with
  | nil => simp [appendFile, fileContent, List.lookup, hbeq]
  | cons kv rest ih =>
    obtain ⟨q, c⟩ := kv
    by_cases hq : q = p
    · subst hq
      simp only [appendFile, if_pos rfl, fileContent, List.lookup, hbeq]
    · by_cases hrq : r = q
      · subst hrq
        have hbeq2 : (r == r) = true := beq_self_eq_true r
        simp only [appendFile, if_neg hq, fileContent, List.lookup, hbeq2]
      · have hbeq2 : (r == q) = false := beq_eq_false_iff_ne.mpr hrq
        simp only [appendFile, if_neg hq, fileContent, List.lookup, hbeq2]
        exact ih

theorem newline_notin_qstr (s : List Char) : '\n' ∉ qstr s := by
  simp only [qstr, List.mem_cons, List.mem_append, List.mem_singleton]
  rintro (h | h | h)
  · exact absurd h (by decide)
  · exact newline_notin_escape s h
  · exact absurd h (by decide)

theorem mem_natDigitsF (fuel : Nat) : ∀ n c, c ∈ natDigitsF fuel n → ∃ m, c = digitChar m := by
  induction fuel with
  | zero => intro n c h; simp [natDigitsF] at h
  | succ f ih =>
    intro n c h
    rw [natDigitsF] at h
    by_cases h10 : n < 10
    · rw [if_pos h10] at h
      simp at h
      exact ⟨n, h⟩
    · rw [if_neg h10] at h
      rcases List.mem_append.mp h with h | h
      · exact ih _ _ h
      · simp at h
        exact ⟨n % 10, h⟩

theorem digitChar_ne_newline (m : Nat) : digitChar m ≠ '\n' := by
  unfold digitChar; split <;> decide

theorem newline_notin_renderInt (i : Int) : '\n' ∉ (renderInt i).data := by
  intro h
  rw [renderInt] at h
  by_cases hneg : i < 0
  · rw [if_pos hneg] at h
    rcases List.mem_cons.mp h with h | h
    · exact absurd h (by decide)
    · obtain ⟨m, hm⟩ := mem_natDigitsF _ _ _ h
      exact digitChar_ne_newline m hm.symm
  · rw [if_neg hneg] at h
    obtain ⟨m, hm⟩ := mem_natDigitsF _ _ _ h
    exact digitChar_ne_newline m hm.symm

theorem newline_notin_fields (fs : List (String × String)) :
    '\n' ∉ serializeAuditFields fs := by
  induction fs with
  | nil => simp [serializeAuditFields]
  | cons kv rest ih =>
    obtain ⟨k, v⟩ := kv
    intro h
    rcases List.mem_cons.mp h with h | h
    · exact absurd h (by decide)
    · rcases List.mem_append.mp h with h | h
      · rcases List.mem_append.mp h with h | h
        · exact newline_notin_qstr _ h
        · rcases List.mem_cons.mp h with h | h
          · exact absurd h (by decide)
          · exact newline_notin_qstr _ h
      · exact ih h

theorem newline_notin_serializeAudit (d : AuditData) :
    '\n' ∉ (serializeAudit d).data := by
  intro h
  rcases List.mem_cons.mp h with h | h
  · exact absurd h (by decide)
  · rcases List.mem_append.mp h with h | h
    · rcases List.mem_append.mp h with h | h
      · rcases List.mem_append.mp h with h | h
        · exact newline_notin_qstr _ h
        · rcases List.mem_cons.mp h with h | h
          · exact absurd h (by decide)
          · exact newline_notin_renderInt d.dtcreated h
      · exact newline_notin_fields d.fields h
    · rcases List.mem_singleton.mp h with h
      exact absurd h (by decide)

/-- C8: every `on_audit` call bumps the audit-open counter by exactly one
and stamps the payload `dtcreated` with the current time; when the write
succeeds, exactly the serialized record plus a terminating newline is
appended to the resolved `logs/<name or audit>.log` file (created if
absent) and no other file changes; no call ever truncates existing content
(every new content extends the old); and the serialized record holds no
newline, so exactly one newline-terminated line is appended.  The `ioFail`
flag models an I/O failure of the append, which the source swallows. -/
theorem on_audit_spec (name : Option String) (d : AuditData) (s : AuditState)
    (now : Int) (ioFail : Bool) :
    ((on_audit name d s now ioFail).2.statsOpen = s.statsOpen + 1) ∧
    ((on_audit name d s now ioFail).1.dtcreated = now) ∧
    (ioFail = false →
      fileContent (on_audit name d s now ioFail).2.files (auditLogPath s.base name)
        = fileContent s.files (auditLogPath s.base name)
            ++ serializeAudit { d with dtcreated := now } ++ "\n"
      ∧ ∀ p, p ≠ auditLogPath s.base name →
          fileContent (on_audit name d s now ioFail).2.files p = fileContent s.files p) ∧
    (∀ p, ∃ suf, fileContent (on_audit name d s now ioFail).2.files p
        = fileContent s.files p ++ suf) ∧
    ('\n' ∉ (serializeAudit { d with dtcreated := now }).data) := by
  cases ioFail with
  | true =>
    refine ⟨rfl, rfl, ?_, ?_, newline_notin_serializeAudit _⟩
    · intro h
      cases h
    · intro p
      exact ⟨"", by simp [on_audit]⟩
  | false =>
    refine ⟨rfl, rfl, ?_, ?_, newline_notin_serializeAudit _⟩
    · intro _
      constructor
      · show fileContent (appendFile s.files (auditLogPath s.base name)
            (serializeAudit { d with dtcreated := now } ++ "\n")) (auditLogPath s.base name) = _
        rw [fileContent_appendFile_self]
        rw [String.append_assoc]
      · intro p hp
        show fileContent (appendFile s.files (auditLogPath s.base name)
            (serializeAudit { d with dtcreated := now } ++ "\n")) p = _
        exact fileContent_appendFile_other _ _ _ _ hp
    · intro p
      by_cases hp : p = auditLogPath s.base name
      · refine ⟨serializeAudit { d with dtcreated := now } ++ "\n", ?_⟩
        rw [hp]
        show fileContent (appendFile s.files (auditLogPath s.base name)
            (serializeAudit { d with dtcreated := now } ++ "\n"))
          (auditLogPath s.base name) = _
        rw [fileContent_appendFile_self]
      · refine ⟨"", ?_⟩
        show fileContent (appendFile s.files (auditLogPath s.base name)
            (serializeAudit { d with dtcreated := now } ++ "\n")) p = _
        rw [fileContent_appendFile_other _ _ _ _ hp]
        simp

/-- C8 witness: a concrete audit call at time 9 bumps the counter from 2 to
3 and appends one serialized line to the resolved log file. -/
theorem on_audit_spec_witness :
    (on_audit (some "ops") { dtcreated := 7, fields := [("a", "b")] }
        { base := "src", statsOpen := 2, files := [("src/logs/ops.log", "old")] }
        9 false).2.statsOpen = 3 ∧
    fileContent
        (on_audit (some "ops") { dtcreated := 7, fields := [("a", "b")] }
          { base := "src", statsOpen := 2, files := [("src/logs/ops.log", "old")] }
          9 false).2.files (auditLogPath "src" (some "ops"))
      = fileContent [("src/logs/ops.log", "old")] (auditLogPath "src" (some "ops"))
          ++ serializeAudit { dtcreated := 9, fields := [("a", "b")] } ++ "\n" :=
  ⟨(on_audit_spec (some "ops") { dtcreated := 7, fields := [("a", "b")] }
      { base := "src", statsOpen := 2, files := [("src/logs/ops.log", "old")] }
      9 false).1,
   ((on_audit_spec (some "ops") { dtcreated := 7, fields := [("a", "b")] }
      { base := "src", statsOpen := 2, files := [("src/logs/ops.log", "old")] }
      9 false).2.2.1 rfl).1⟩


/-- C2 counterexample: on the concrete input of the claim, `route` does not
return `plugins/shop/public/style.css` under the base directory, because
the 2-character skip drops the slash and the first character of the
remainder. -/
theorem route_plugin_css_counterexample :
    route "src" "_shop/public/style.css" "public" ≠
      some "src/plugins/shop/public/style.css" := by decide

/-- C2 amended: `route("_shop/public/style.css", "public")` resolves under
the plugins directory to `plugins/shop/public/ublic/style.css`: the
plugin-name segment is `shop`, the directory context is `public`, and the
remainder appended after the plugin-name segment and the fixed 2-character
skip is `ublic/style.css`. -/
theorem route_plugin_css_amended :
    route "src" "_shop/public/style.css" "public" =
      some "src/plugins/shop/public/ublic/style.css" := by decide

end Total5
